import Mathlib

/-!
Shallow embedding of the StockSignalDashboard core in Lean 4, together with
theorems settling the specification claims about it.

Conventions of the embedding:
* pandas Series of prices become functions from bar position to rational value,
  or lists of rationals; machine floats are modelled as exact rationals;
* NaN-producing operations return Option values, and NaN combines as False in
  boolean logic (matching pandas semantics used by the code);
* timestamps are minutes since an arbitrary epoch, so a calendar date is
  ts / 1440 and the time of day is ts % 1440 (09:30 is minute 570, 16:00 is
  minute 960);
* code that can raise is embedded with Except / Option.
-/

namespace StockSignal

/-! ### IndicatorEngine: embedding of src/indicators.py -/

/-- One step of pandas ewm(span, adjust=False).mean(): the EMA value at
position i of the series x, seeded from the first observed value. -/
def ewmAt (a : ℚ) (x : ℕ → ℚ) : ℕ → ℚ
  | 0 => x 0
  | i + 1 => a * x (i + 1) + (1 - a) * ewmAt a x i

/-- fast_ema: close.ewm(span=12, adjust=False).mean(), alpha = 2/13. -/
def fast_ema (c : ℕ → ℚ) (i : ℕ) : ℚ := ewmAt (2/13) c i

/-- slow_ema: close.ewm(span=26, adjust=False).mean(), alpha = 2/27. -/
def slow_ema (c : ℕ → ℚ) (i : ℕ) : ℚ := ewmAt (2/27) c i

/-- diff = fast_ema - slow_ema (the MACD oscillator). -/
def diffQ (c : ℕ → ℚ) (i : ℕ) : ℚ := fast_ema c i - slow_ema c i

/-- dea = diff.ewm(span=9, adjust=False).mean(), alpha = 2/10 = 1/5. -/
def dea (c : ℕ → ℚ) (i : ℕ) : ℚ := ewmAt (1/5) (diffQ c) i

/-- mcd = (diff - dea) * 2 (the MACD histogram). -/
def mcd (c : ℕ → ℚ) (i : ℕ) : ℚ := (diffQ c i - dea c i) * 2

/-- cross_down = (mcd.shift(1) >= 0) & (mcd < 0); the shifted value at
position 0 is NaN and a NaN comparison is False. -/
def cross_down (c : ℕ → ℚ) (i : ℕ) : Bool :=
  decide (0 < i) && decide (0 ≤ mcd c (i - 1)) && decide (mcd c i < 0)

/-- cross_up = (mcd.shift(1) <= 0) & (mcd > 0). -/
def cross_up (c : ℕ → ℚ) (i : ℕ) : Bool :=
  decide (0 < i) && decide (mcd c (i - 1) ≤ 0) && decide (0 < mcd c i)

/-- Position of the most recent index j <= i with ev j = true, if any;
the forward pass carrying last-event state of _compute_barslast. -/
def lastEventAt (ev : ℕ → Bool) : ℕ → Option ℕ
  | 0 => if ev 0 then some 0 else none
  | i + 1 => if ev (i + 1) then some (i + 1) else lastEventAt ev i

/-- _compute_barslast: bars elapsed since the last event, 0 if none yet. -/
def barslast (ev : ℕ → Bool) (i : ℕ) : ℕ := (lastEventAt ev i).elim 0 (fun j => i - j)

/-- N1 = BARSLAST(cross_down). -/
def n1 (c : ℕ → ℚ) (i : ℕ) : ℕ := barslast (cross_down c) i

/-- MM1 = BARSLAST(cross_up). -/
def mm1 (c : ℕ → ℚ) (i : ℕ) : ℕ := barslast (cross_up c) i

/-- _compute_llv: lowest value of g over the trailing window of the given
length ending at i, the window start clipped at 0.  Natural subtraction
i - k clips at 0, which only duplicates g 0 inside the minimum. -/
def llvAt (g : ℕ → ℚ) (period i : ℕ) : ℚ :=
  ((List.range period).map (fun k => g (i - k))).foldr min (g i)

/-- Highest-value counterpart of llvAt, used by the modelled MC indicator. -/
def hhvAt (g : ℕ → ℚ) (period i : ℕ) : ℚ :=
  ((List.range period).map (fun k => g (i - k))).foldr max (g i)

/-- CC1 = LLV(close, N1_SAFE) where N1_SAFE = N1 + 1 (always positive, so
this entry of the series is never NaN). -/
def cc1 (c : ℕ → ℚ) (i : ℕ) : ℚ := llvAt c (n1 c i + 1) i

/-- CC2 = REF(CC1, MM1_SAFE): the value of CC1 looked back MM1 + 1 bars,
NaN (none) when the lag reaches before the start of the series. -/
def cc2 (c : ℕ → ℚ) (i : ℕ) : Option ℚ :=
  if mm1 c i + 1 ≤ i then some (cc1 c (i - (mm1 c i + 1))) else none

/-- CC3 = REF(CC2, MM1_SAFE). -/
def cc3 (c : ℕ → ℚ) (i : ℕ) : Option ℚ :=
  if mm1 c i + 1 ≤ i then cc2 c (i - (mm1 c i + 1)) else none

/-- DIFL1 = LLV(diff, N1_SAFE). -/
def difl1 (c : ℕ → ℚ) (i : ℕ) : ℚ := llvAt (diffQ c) (n1 c i + 1) i

/-- DIFL2 = REF(DIFL1, MM1_SAFE). -/
def difl2 (c : ℕ → ℚ) (i : ℕ) : Option ℚ :=
  if mm1 c i + 1 ≤ i then some (difl1 c (i - (mm1 c i + 1))) else none

/-- DIFL3 = REF(DIFL2, MM1_SAFE). -/
def difl3 (c : ℕ → ℚ) (i : ℕ) : Option ℚ :=
  if mm1 c i + 1 ≤ i then difl2 c (i - (mm1 c i + 1)) else none

/-- Comparison a < b where b may be NaN; NaN compares False. -/
def ltOpt (a : ℚ) (b : Option ℚ) : Bool := b.elim false (fun v => decide (a < v))

/-- Comparison a > b where b may be NaN; NaN compares False. -/
def gtOpt (a : ℚ) (b : Option ℚ) : Bool := b.elim false (fun v => decide (v < a))

/-- AAA = (CC1 < CC2) & (DIFL1 > DIFL2) & (mcd.shift(1) < 0) & (diff < 0). -/
def aaa (c : ℕ → ℚ) (i : ℕ) : Bool :=
  ltOpt (cc1 c i) (cc2 c i) && gtOpt (difl1 c i) (difl2 c i) &&
    (decide (0 < i) && decide (mcd c (i - 1) < 0)) && decide (diffQ c i < 0)

/-- BBB = (CC1 < CC3) & (DIFL1 < DIFL2) & (DIFL1 > DIFL3)
  & (mcd.shift(1) < 0) & (diff < 0). -/
def bbb (c : ℕ → ℚ) (i : ℕ) : Bool :=
  ltOpt (cc1 c i) (cc3 c i) && ltOpt (difl1 c i) (difl2 c i) &&
    gtOpt (difl1 c i) (difl3 c i) &&
    (decide (0 < i) && decide (mcd c (i - 1) < 0)) && decide (diffQ c i < 0)

/-- CCC = AAA | BBB. -/
def ccc (c : ℕ → ℚ) (i : ℕ) : Bool := aaa c i || bbb c i

/-- JJJ = CCC.shift(1) & (abs(diff.shift(1)) >= abs(diff) * 1.01). -/
def jjj (c : ℕ → ℚ) (i : ℕ) : Bool :=
  decide (0 < i) && ccc c (i - 1) && decide (|diffQ c i| * (101/100) ≤ |diffQ c (i - 1)|)

/-- DXDX = JJJ & ~JJJ.shift(1, fill_value=False): edge-triggered signal. -/
def dxdx (c : ℕ → ℚ) (i : ℕ) : Bool := jjj c i && !(decide (0 < i) && jjj c (i - 1))

/-- The close Series of a data frame, as a position-indexed function. -/
def closeFn (closes : List ℚ) : ℕ → ℚ := fun j => closes.getD j 0

/-- compute_cd_indicator from src/indicators.py: the boolean CD signal
sequence computed from the close prices of the bar sequence. -/
def compute_cd_indicator (closes : List ℚ) : List Bool :=
  (List.range closes.length).map (fun i => dxdx (closeFn closes) i)

/-! ### MC indicator, modelled from the spec

compute_mc_indicator is imported throughout the repository (get_best_CD_interval,
get_best_MC_interval, get_resonance_signal_MC) but its definition is not part
of src/indicators.py, so it is modelled from the spec here. -/

/-- MC BARSLAST of the rising-through-zero events (the direction-flipped
counterpart of n1). -/
def n1_mc (c : ℕ → ℚ) (i : ℕ) : ℕ := barslast (cross_up c) i

/-- MC BARSLAST of the falling-through-zero events (the direction-flipped
counterpart of mm1). -/
def mm1_mc (c : ℕ → ℚ) (i : ℕ) : ℕ := barslast (cross_down c) i

/-- HH1 = HHV(close, N1_MC + 1): highest close over the trailing window. -/
def hh1 (c : ℕ → ℚ) (i : ℕ) : ℚ := hhvAt c (n1_mc c i + 1) i

/-- HH2 = REF(HH1, MM1_MC + 1). -/
def hh2 (c : ℕ → ℚ) (i : ℕ) : Option ℚ :=
  if mm1_mc c i + 1 ≤ i then some (hh1 c (i - (mm1_mc c i + 1))) else none

/-- HH3 = REF(HH2, MM1_MC + 1). -/
def hh3 (c : ℕ → ℚ) (i : ℕ) : Option ℚ :=
  if mm1_mc c i + 1 ≤ i then hh2 c (i - (mm1_mc c i + 1)) else none

/-- DIFH1 = HHV(diff, N1_MC + 1). -/
def difh1 (c : ℕ → ℚ) (i : ℕ) : ℚ := hhvAt (diffQ c) (n1_mc c i + 1) i

/-- DIFH2 = REF(DIFH1, MM1_MC + 1). -/
def difh2 (c : ℕ → ℚ) (i : ℕ) : Option ℚ :=
  if mm1_mc c i + 1 ≤ i then some (difh1 c (i - (mm1_mc c i + 1))) else none

/-- DIFH3 = REF(DIFH2, MM1_MC + 1). -/
def difh3 (c : ℕ → ℚ) (i : ℕ) : Option ℚ :=
  if mm1_mc c i + 1 ≤ i then difh2 c (i - (mm1_mc c i + 1)) else none

/-- Direction-flipped condition A: higher high in price with a lower high in
the oscillator, while the histogram was positive and the oscillator is
positive. -/
def aaa_mc (c : ℕ → ℚ) (i : ℕ) : Bool :=
  gtOpt (hh1 c i) (hh2 c i) && ltOpt (difh1 c i) (difh2 c i) &&
    (decide (0 < i) && decide (0 < mcd c (i - 1))) && decide (0 < diffQ c i)

/-- Direction-flipped condition B. -/
def bbb_mc (c : ℕ → ℚ) (i : ℕ) : Bool :=
  gtOpt (hh1 c i) (hh3 c i) && gtOpt (difh1 c i) (difh2 c i) &&
    ltOpt (difh1 c i) (difh3 c i) &&
    (decide (0 < i) && decide (0 < mcd c (i - 1))) && decide (0 < diffQ c i)

/-- MC raw condition. -/
def ccc_mc (c : ℕ → ℚ) (i : ℕ) : Bool := aaa_mc c i || bbb_mc c i

/-- MC qualifying condition with the same oscillator-shrink discipline. -/
def jjj_mc (c : ℕ → ℚ) (i : ℕ) : Bool :=
  decide (0 < i) && ccc_mc c (i - 1) && decide (|diffQ c i| * (101/100) ≤ |diffQ c (i - 1)|)

/-- MC edge-triggered signal. -/
def dxdx_mc (c : ℕ → ℚ) (i : ℕ) : Bool := jjj_mc c i && !(decide (0 < i) && jjj_mc c (i - 1))

/-- Modelled from the spec: compute_mc_indicator is imported from indicators
but not defined under src; per spec section 4.2 step 10 it is built from the
identical recurrence structure as compute_cd_indicator with the direction
parameter flipped, with the same warm-up and edge-triggering discipline. -/
def compute_mc_indicator (closes : List ℚ) : List Bool :=
  (List.range closes.length).map (fun i => dxdx_mc (closeFn closes) i)

/-! ### BacktestEvaluator: embedding of calculate_returns and the per-horizon
aggregation of evaluate_interval (get_best_CD_interval.py and
get_best_MC_interval.py) -/

/-- One row of the DataFrame built by calculate_returns: the signal position
and, per horizon, the forward return (none embeds np.nan). -/
structure RetRow where
  idx : ℕ
  rets : List (ℕ × Option ℚ)
deriving Repr, DecidableEq

/-- max(periods) (0 for the empty list, which cannot occur in the source). -/
def maxNat (l : List ℕ) : ℕ := l.foldr max 0

/-- data.index[signals]: positions of the True entries of the signal mask. -/
def signalIndices (n : ℕ) (signals : List Bool) : List ℕ :=
  (List.range n).filter (fun i => signals.getD i false)

/-- signal_dates[-max_signals:] when there are more than max_signals. -/
def limitLast (k : ℕ) (l : List ℕ) : List ℕ :=
  if k < l.length then l.drop (l.length - k) else l

/-- Forward return in percent from the close at the signal bar:
(exit - entry) / entry * 100. -/
def forward_return (closes : List ℚ) (i p : ℕ) : ℚ :=
  (closes.getD (i + p) 0 - closes.getD i 0) / closes.getD i 0 * 100

/-- calculate_returns from get_best_CD_interval.py: an occurrence is skipped
entirely when idx + max(periods) runs past the end of the series; otherwise a
row records, per horizon, the forward return when the future bar exists and
NaN (none) when it does not.  The companion MC-analysis columns of the source
row (prev_mc_date and friends) are side information never used by the
per-horizon statistics and are not embedded. -/
def calculate_returns (closes : List ℚ) (signals : List Bool) (periods : List ℕ)
    (max_signals : ℕ) : List RetRow :=
  (limitLast max_signals (signalIndices closes.length signals)).filterMap (fun i =>
    if closes.length ≤ i + maxNat periods then none
    else some ⟨i, periods.map (fun p =>
      (p, if i + p < closes.length then some (forward_return closes i p) else none))⟩)

/-- Python round to the nearest integer with ties to even (banker rounding). -/
def roundHalfEven (y : ℚ) : ℤ :=
  if y - Int.floor y < 1/2 then Int.floor y
  else if 1/2 < y - Int.floor y then Int.floor y + 1
  else if Int.floor y % 2 = 0 then Int.floor y else Int.floor y + 1

/-- Python round(x, 2). -/
def pyRound2 (x : ℚ) : ℚ := (roundHalfEven (x * 100) : ℚ) / 100

/-- calculate_returns from get_best_MC_interval.py: same skip structure, with
the recorded return rounded to two decimals.  The parallel volume columns of
the source row do not enter test_count or success_rate and are not
embedded. -/
def calculate_returns_mc (closes : List ℚ) (signals : List Bool) (periods : List ℕ)
    (max_signals : ℕ) : List RetRow :=
  (limitLast max_signals (signalIndices closes.length signals)).filterMap (fun i =>
    if closes.length ≤ i + maxNat periods then none
    else some ⟨i, periods.map (fun p =>
      (p, if i + p < closes.length then some (pyRound2 (forward_return closes i p)) else none))⟩)

/-- The recorded return of a row at horizon p (none when NaN or absent). -/
def retAt (r : RetRow) (p : ℕ) : Option ℚ := (r.rets.lookup p).bind id

/-- returns_df[return_p].dropna(): the defined returns at horizon p. -/
def individual_returns (rows : List RetRow) (p : ℕ) : List ℚ :=
  rows.filterMap (fun r => retAt r p)

/-- test_count_p = len(individual_returns). -/
def test_count (rows : List RetRow) (p : ℕ) : ℕ := (individual_returns rows p).length

/-- CD success_rate_p = (returns > 0).mean() * 100 when tested, else 0. -/
def success_rate (rows : List RetRow) (p : ℕ) : ℚ :=
  if 0 < test_count rows p then
    (((individual_returns rows p).filter (fun x => decide (0 < x))).length : ℚ)
      / (test_count rows p : ℚ) * 100
  else 0

/-- MC success_rate_p = round((returns < 0).mean() * 100, 2) when tested,
else 0: a strictly negative return is the favorable outcome for MC. -/
def success_rate_mc (rows : List RetRow) (p : ℕ) : ℚ :=
  if 0 < test_count rows p then
    pyRound2 ((((individual_returns rows p).filter (fun x => decide (x < 0))).length : ℚ)
      / (test_count rows p : ℚ) * 100)
  else 0

/-- signal_count = cd_signals.fillna(False).sum(). -/
def signal_count (n : ℕ) (signals : List Bool) : ℕ := (signalIndices n signals).length

/-- The horizon set of the CD evaluator. -/
def cdPeriods : List ℕ := [3, 5, 10, 15, 20, 25, 30, 40, 50, 60, 80, 100]

/-! ### Resampler: embedding of transform_1h_data / transform_5m_data
(src/data_loader.py) -/

/-- One base price bar; ts is in minutes, so the calendar date is ts / 1440.
Field names mirror the DataFrame columns. -/
structure Bar where
  ts : ℕ
  Open : ℚ
  High : ℚ
  Low : ℚ
  Close : ℚ
  Volume : ℚ
deriving Repr, DecidableEq

/-- One resampled output bar, indexed by its calendar date and its bucket
number counted from the 09:30 session open (label = left bucket edge). -/
structure OutBar where
  day : ℕ
  bucket : ℕ
  Open : ℚ
  High : ℚ
  Low : ℚ
  Close : ℚ
  Volume : ℚ
deriving Repr, DecidableEq

/-- Decidable equality of Except values, used to evaluate the resampler on
concrete inputs. -/
instance [DecidableEq e] [DecidableEq α] : DecidableEq (Except e α)
  | .error a, .error b =>
    if h : a = b then .isTrue (h ▸ rfl) else .isFalse (fun hc => h (by cases hc; rfl))
  | .error _, .ok _ => .isFalse (fun hc => by cases hc)
  | .ok _, .error _ => .isFalse (fun hc => by cases hc)
  | .ok a, .ok b =>
    if h : a = b then .isTrue (h ▸ rfl) else .isFalse (fun hc => h (by cases hc; rfl))

/-- between_time("09:30", "16:00"): both endpoints inclusive. -/
def inSession (b : Bar) : Bool := decide (570 ≤ b.ts % 1440) && decide (b.ts % 1440 ≤ 960)

/-- groupby(df.index.date) key. -/
def barDay (b : Bar) : ℕ := b.ts / 1440

/-- Bucket number of a session bar for resampling with origin start_day and
offset 9h30min: consecutive width-minute windows anchored at minute 570. -/
def bucketIdx (width : ℕ) (b : Bar) : ℕ := (b.ts % 1440 - 570) / width

/-- Stable insertion into a timestamp-sorted list. -/
def insertTs (b : Bar) : List Bar → List Bar
  | [] => [b]
  | x :: xs => if b.ts < x.ts then b :: x :: xs else x :: insertTs b xs

/-- df.sort_index(): stable sort of the bars by timestamp. -/
def sortBars : List Bar → List Bar
  | [] => []
  | b :: bs => insertTs b (sortBars bs)

/-- First-occurrence deduplication (the order pandas unique and groupby use),
carried out with an accumulator of already seen keys. -/
def uniqueFirstAux [DecidableEq α] (seen : List α) : List α → List α
  | [] => []
  | a :: l => if a ∈ seen then uniqueFirstAux seen l else a :: uniqueFirstAux (a :: seen) l

/-- First-occurrence deduplication of a list. -/
def uniqueFirst [DecidableEq α] (l : List α) : List α := uniqueFirstAux [] l

/-- Maximum of a list of rationals (nonempty in every use). -/
def listMaxQ : List ℚ → ℚ
  | [] => 0
  | [x] => x
  | x :: y :: xs => max x (listMaxQ (y :: xs))

/-- Minimum of a list of rationals (nonempty in every use). -/
def listMinQ : List ℚ → ℚ
  | [] => 0
  | [x] => x
  | x :: y :: xs => min x (listMinQ (y :: xs))

/-- Sum of a list of rationals. -/
def listSumQ (l : List ℚ) : ℚ := l.foldr (· + ·) 0

/-- agg of one nonempty resample bucket: Open first, High max, Low min,
Close last, Volume sum of the constituent bars. -/
def aggBucket (day k : ℕ) (cs : List Bar) : OutBar :=
  { day := day, bucket := k,
    Open := (cs.head?.elim 0 Bar.Open),
    High := listMaxQ (cs.map Bar.High),
    Low := listMinQ (cs.map Bar.Low),
    Close := ((cs.getLast?).elim 0 Bar.Close),
    Volume := listSumQ (cs.map Bar.Volume) }

/-- The session bars of one calendar date, in timestamp order. -/
def dayBars (s : List Bar) (d : ℕ) : List Bar := s.filter (fun b => barDay b = d)

/-- Per-day resampling: one aggregated bar per nonempty bucket; buckets whose
OHLC cannot be computed (no bars) are exactly the ones never formed, matching
the dropna on the resampled rows. -/
def resampleDay (width : ℕ) (bars1d : List Bar) (d : ℕ) : List OutBar :=
  (uniqueFirst (bars1d.map (bucketIdx width))).map (fun k =>
    aggBucket d k (bars1d.filter (fun b => bucketIdx width b = k)))

/-- Core of transform_1h_data / transform_5m_data: empty input returns empty;
otherwise sort, keep the 09:30-16:00 session, group by calendar date, resample
each day into width-minute buckets anchored at 09:30, and concatenate.
pd.concat of an empty list raises, embedded as an error value. -/
def transform_data (width : ℕ) (bars : List Bar) : Except String (List OutBar) :=
  if bars.isEmpty then .ok []
  else
    let s := (sortBars bars).filter inSession
    let days := uniqueFirst (s.map barDay)
    if days.isEmpty then .error ("No objects to concatenate")
    else .ok ((days.map (fun d => resampleDay width (dayBars s d) d)).flatten)

/-- transform_1h_data: resample 1h bars to the requested hour interval. -/
def transform_1h_data (hours : ℕ) (bars : List Bar) : Except String (List OutBar) :=
  transform_data (60 * hours) bars

/-- transform_5m_data: resample 5m bars to the requested minute interval. -/
def transform_5m_data (minutes : ℕ) (bars : List Bar) : Except String (List OutBar) :=
  transform_data minutes bars

/-! ### ResonanceDetector: embedding of identify_1234 / identify_5230
(get_resonance_signal.py, utils.py) -/

/-- One row of the breakout-details file read by identify_1234: ticker,
interval, full signal timestamp (minutes) and signal price. -/
structure SigRow where
  ticker : String
  interval : String
  ts : ℕ
  signal_price : ℚ
deriving Repr, DecidableEq

/-- One emitted breakout candidate: ticker, calendar date, score = number of
contributing required intervals, and the latest signal price. -/
structure Candidate where
  ticker : String
  date : ℕ
  score : ℕ
  signal_price : Option ℚ
deriving Repr, DecidableEq

/-- The required interval set of identify_1234. -/
def required_intervals_1234 : List String := ["1h", "2h", "3h", "4h"]

/-- The required interval set of identify_5230. -/
def required_intervals_5230 : List String := ["5m", "10m", "15m", "30m"]

/-- df.date: the calendar date of a signal row. -/
def rowDate (r : SigRow) : ℕ := r.ts / 1440

/-- unique_dates = df.date.unique()[::-1]: the distinct dates in reverse
order of first appearance. -/
def unique_dates (rows : List SigRow) : List ℕ := (uniqueFirst (rows.map rowDate)).reverse

/-- ticker_data.signal_date.max(). -/
def maxTs (rs : List SigRow) : ℕ := (rs.map SigRow.ts).foldr max 0

/-- ticker_data.loc[ticker_data.signal_date.idxmax()]: the first row attaining
the maximal timestamp. -/
def idxmaxRow (rs : List SigRow) : Option SigRow := rs.find? (fun r => r.ts = maxTs rs)

/-- The window filter of one loop iteration: rows whose date lies between
unique_dates[i] and unique_dates[min(i+2, len-1)] by value. -/
def window_data (rows : List SigRow) (u : List ℕ) (i : ℕ) : List SigRow :=
  rows.filter (fun r =>
    decide (u.getD i 0 ≤ rowDate r) && decide (rowDate r ≤ u.getD (min (i + 2) (u.length - 1)) 0))

/-- len(set(ticker_data.interval) & required_intervals). -/
def score_of (required : List String) (rs : List SigRow) : ℕ :=
  ((uniqueFirst (rs.map SigRow.interval)).filter (fun s => required.contains s)).length

/-- Inner loop body: one ticker of one window, threading the emitted
candidates and the processed (ticker, date) combinations. -/
def stepTicker (required : List String) (wd : List SigRow)
    (st : List Candidate × List (String × ℕ)) (t : String) :
    List Candidate × List (String × ℕ) :=
  let td := wd.filter (fun r => r.ticker = t)
  let sc := score_of required td
  if 3 ≤ sc then
    let mrsd := maxTs td / 1440
    if st.2.contains (t, mrsd) then st
    else (st.1 ++ [⟨t, mrsd, sc, (idxmaxRow td).map SigRow.signal_price⟩], st.2 ++ [(t, mrsd)])
  else st

/-- Outer loop body: one window position. -/
def stepWindow (required : List String) (rows : List SigRow) (u : List ℕ)
    (st : List Candidate × List (String × ℕ)) (i : ℕ) :
    List Candidate × List (String × ℕ) :=
  (uniqueFirst ((window_data rows u i).map SigRow.ticker)).foldl (stepTicker required (window_data rows u i)) st

/-- df[df.interval.isin(required_intervals)]. -/
def requiredRows (required : List String) (rows0 : List SigRow) : List SigRow :=
  rows0.filter (fun r => required.contains r.interval)

/-- The candidate-emission stage shared by identify_1234 and identify_5230:
filter to the required intervals, loop over the positions of the distinct
dates, and emit each qualifying (ticker, date) combination once. -/
def breakout_candidates (required : List String) (rows0 : List SigRow) : List Candidate :=
  let rows := requiredRows required rows0
  let u := unique_dates rows
  ((List.range u.length).foldl (stepWindow required rows u) ([], [])).1

/-- The date window of loop position i as the spec words it: the distinct
signal dates at list positions i through i+2 of unique_dates. -/
def posWindow (u : List ℕ) (i : ℕ) : List ℕ :=
  (List.range 3).filterMap (fun m => if i + m < u.length then some (u.getD (i + m) 0) else none)

/-- The number of distinct required intervals among the events of one ticker
whose date lies in the position-based window at loop position i. -/
def posWindowScore (required : List String) (rows : List SigRow) (t : String) (i : ℕ) : ℕ :=
  score_of required (rows.filter (fun r =>
    decide (r.ticker = t) && (posWindow (unique_dates rows) i).contains (rowDate r)))

/-- Candidate emission of identify_1234. -/
def identify_1234_candidates (rows : List SigRow) : List Candidate :=
  breakout_candidates required_intervals_1234 rows

/-- Candidate emission of identify_5230. -/
def identify_5230_candidates (rows : List SigRow) : List Candidate :=
  breakout_candidates required_intervals_5230 rows

/-- sort_values(by=['date', 'ticker'], ascending=[False, True]) ordering. -/
def candBefore (a b : Candidate) : Bool :=
  decide (b.date < a.date) || (decide (a.date = b.date) && decide (a.ticker < b.ticker))

/-- Insertion step of the candidate sort. -/
def insertCand (c : Candidate) : List Candidate → List Candidate
  | [] => [c]
  | x :: xs => if candBefore c x then c :: x :: xs else x :: insertCand c xs

/-- Sort of the emitted candidates by date descending, ticker ascending. -/
def sortCands : List Candidate → List Candidate
  | [] => []
  | c :: cs => insertCand c (sortCands cs)

/-- A breakout candidate together with its trend-confirmation flag. -/
structure CandidateNx where
  ticker : String
  date : ℕ
  score : ℕ
  signal_price : Option ℚ
  nx_1d : Bool
deriving Repr, DecidableEq

/-- close.ewm(span, adjust=False).mean() at position i of a close list. -/
def ema_at (span : ℕ) (xs : List ℚ) (i : ℕ) : ℚ :=
  ewmAt (2 / ((span : ℚ) + 1)) (fun j => xs.getD j 0) i

/-- nx_1d.to_dict() for one ticker: per reference bar, its calendar date
mapped to EMA(span 24) of close > EMA(span 89) of close at that bar. -/
def nx_dict (ref : List (ℕ × ℚ)) : List (ℕ × Bool) :=
  (List.range ref.length).map (fun i =>
    ((ref.getD i (0, 0)).1,
     decide (ema_at 89 (ref.map Prod.snd) i < ema_at 24 (ref.map Prod.snd) i)))

/-- all_ticker_data[ticker]['1d'] as (date, close) pairs; a missing ticker,
a missing reference interval and an empty frame all collapse to []. -/
def lookupRef (refData : List (String × List (ℕ × ℚ))) (t : String) : List (ℕ × ℚ) :=
  ((refData.filter (fun e => e.1 = t)).getLast?).elim [] Prod.snd

/-- Python dict lookup (raising lookups embed as none); a duplicate key keeps
the last binding, as dict construction does. -/
def dictGet (d : List (ℕ × Bool)) (k : ℕ) : Option Bool :=
  ((d.filter (fun e => e.1 = k)).getLast?).map Prod.snd

/-- Row-by-row effectful traversal: apply f to each element in order and
collect the results, failing at the first failure (df.apply raising a
KeyError embeds as the first none). -/
def traverseOpt : List α → (α → Option β) → Option (List β)
  | [], _ => some []
  | x :: xs, f =>
    match f x, traverseOpt xs f with
    | some y, some ys => some (y :: ys)
    | _, _ => none

/-- The per-ticker nx dictionaries of identify_1234: one entry per distinct
candidate ticker that has nonempty reference data. -/
def nx_tables (refData : List (String × List (ℕ × ℚ))) (cands : List Candidate) :
    List (String × List (ℕ × Bool)) :=
  (uniqueFirst (cands.map Candidate.ticker)).foldl (fun acc t =>
    if (lookupRef refData t).isEmpty then acc else acc ++ [(t, nx_dict (lookupRef refData t))]) []

/-- identify_1234 of get_resonance_signal.py after the candidate-emission
stage: sort the candidates, build the nx dictionaries from the reference
data, drop every candidate whose ticker has no reference data, then annotate
each remaining candidate with its dictionary value at the candidate date
(none embeds the KeyError raised when the date is absent). -/
def identify_1234 (rows : List SigRow) (refData : List (String × List (ℕ × ℚ))) :
    Option (List CandidateNx) :=
  let cands := sortCands (identify_1234_candidates rows)
  let tables := nx_tables refData cands
  let kept := cands.filter (fun c => (tables.map Prod.fst).contains c.ticker)
  traverseOpt kept (fun c =>
    (dictGet (((tables.filter (fun e => e.1 = c.ticker)).getLast?).elim [] Prod.snd) c.date).map
      (fun b => ⟨c.ticker, c.date, c.score, c.signal_price, b⟩))

/-! ### Concrete inputs used by the claim theorems -/

/-- A 19-bar close sequence: decline to 87, bounce to 99, decline to a lower
low 86 with a shallower oscillator trough, then recovery. -/
def warmupCex : List ℚ :=
  [100, 98, 94, 90, 88, 87, 89, 93, 96, 98, 99, 98, 94, 90, 87, 86, 90, 91, 92]

/-- Eleven bars with entry close 100 at position 0 and exit close 110 ten
bars later. -/
def cdExampleCloses : List ℚ := List.replicate 10 100 ++ [110]

/-- A single CD occurrence at position 0. -/
def cdExampleSignals : List Bool := true :: List.replicate 10 false

/-- Eleven bars with entry close 100 at position 0 and exit close 90 ten
bars later. -/
def mcExampleCloses : List ℚ := List.replicate 10 100 ++ [90]

/-- The spec example for the resonance detector: ticker XYZ signals on dates
[D, D, D+1] (D = day 100) at intervals 1h, 2h and 3h, in the newest-first
file order produced by save_results. -/
def c3ExampleRows : List SigRow :=
  [⟨"XYZ", "3h", 101 * 1440 + 600, 21⟩,
   ⟨"XYZ", "1h", 100 * 1440 + 600, 19⟩,
   ⟨"XYZ", "2h", 100 * 1440 + 630, 20⟩]

/-- An input whose dates are not ordered: days appear as 107, 110, 100, 105,
so unique_dates becomes [105, 100, 110, 107] and the value-range window of
position 0 spans days 105..110, capturing day 107 which sits at list
position 3. -/
def c3CexRows : List SigRow :=
  [⟨"XYZ", "3h", 107 * 1440 + 600, 10⟩,
   ⟨"XYZ", "2h", 110 * 1440 + 600, 11⟩,
   ⟨"XYZ", "2h", 100 * 1440 + 600, 12⟩,
   ⟨"XYZ", "1h", 105 * 1440 + 600, 13⟩]

/-- Reference daily data for ticker XYZ: one bar on day 101 with close 5. -/
def c7RefData : List (String × List (ℕ × ℚ)) := [("XYZ", [(101, 5)])]

/-- Session bars used to exercise the resampler: three session bars of day
10 (09:30, 10:30 and 11:40) and one pre-market bar (06:40). -/
def c6Bars : List Bar :=
  [⟨10 * 1440 + 570, 5, 9, 4, 6, 100⟩,
   ⟨10 * 1440 + 630, 6, 10, 5, 7, 50⟩,
   ⟨10 * 1440 + 700, 7, 12, 6, 8, 25⟩,
   ⟨10 * 1440 + 400, 1, 2, 1, 2, 10⟩]

/-! ### Shared helper lemmas -/

theorem mem_uniqueFirstAux [DecidableEq α] (l : List α) :
    ∀ (seen : List α) (x : α), x ∈ uniqueFirstAux seen l ↔ x ∈ l ∧ x ∉ seen := by
  induction l with
  | nil => intro seen x; simp [uniqueFirstAux]
  | cons a l ih =>
    intro seen x
    by_cases ha : a ∈ seen
    · by_cases hxa : x = a
      · subst hxa; simp [uniqueFirstAux, if_pos ha, ih, ha]
      · simp [uniqueFirstAux, if_pos ha, ih, hxa]
    · simp only [uniqueFirstAux, if_neg ha, List.mem_cons, ih]
      by_cases hxa : x = a
      · subst hxa; simp [ha]
      · simp [hxa]

theorem mem_uniqueFirst [DecidableEq α] (l : List α) (x : α) :
    x ∈ uniqueFirst l ↔ x ∈ l := by
  simp [uniqueFirst, mem_uniqueFirstAux]

theorem length_filterMap_eq_length_filter (f : α → Option β) (l : List α) :
    (l.filterMap f).length = (l.filter (fun x => (f x).isSome)).length := by
  induction l with
  | nil => rfl
  | cons a l ih =>
    cases h : f a with
    | none => simp [List.filterMap_cons, List.filter_cons, h, ih]
    | some b => simp [List.filterMap_cons, List.filter_cons, h, ih]

theorem length_limitLast (k : ℕ) (l : List ℕ) : (limitLast k l).length ≤ l.length := by
  unfold limitLast
  split
  · simp
  · exact le_rfl

theorem length_calculate_returns (closes : List ℚ) (signals : List Bool)
    (periods : List ℕ) (maxS : ℕ) :
    (calculate_returns closes signals periods maxS).length ≤
      signal_count closes.length signals := by
  unfold calculate_returns signal_count
  exact le_trans (List.length_filterMap_le _ _) (length_limitLast _ _)

theorem length_calculate_returns_mc (closes : List ℚ) (signals : List Bool)
    (periods : List ℕ) (maxS : ℕ) :
    (calculate_returns_mc closes signals periods maxS).length ≤
      signal_count closes.length signals := by
  unfold calculate_returns_mc signal_count
  exact le_trans (List.length_filterMap_le _ _) (length_limitLast _ _)

theorem lookup_map_pair (f : ℕ → Option ℚ) (l : List ℕ) (p : ℕ) :
    (l.map (fun q => (q, f q))).lookup p = if p ∈ l then some (f p) else none := by
  induction l with
  | nil => simp [List.lookup]
  | cons a l ih =>
    by_cases hpa : p = a
    · subst hpa; simp [List.lookup, ih]
    · have : (p == a) = false := by simp [hpa]
      simp [List.lookup, this, ih, hpa]

theorem retAt_calc_row (closes : List ℚ) (periods : List ℕ) (i p : ℕ) :
    retAt ⟨i, periods.map (fun q =>
        (q, if i + q < closes.length then some (forward_return closes i q) else none))⟩ p =
      if p ∈ periods then
        (if i + p < closes.length then some (forward_return closes i p) else none)
      else none := by
  unfold retAt
  rw [lookup_map_pair (fun q => if i + q < closes.length then some (forward_return closes i q) else none)]
  split
  · rfl
  · rfl

theorem retAt_calc_row_mc (closes : List ℚ) (periods : List ℕ) (i p : ℕ) :
    retAt ⟨i, periods.map (fun q =>
        (q, if i + q < closes.length then some (pyRound2 (forward_return closes i q)) else none))⟩ p =
      if p ∈ periods then
        (if i + p < closes.length then some (pyRound2 (forward_return closes i p)) else none)
      else none := by
  unfold retAt
  rw [lookup_map_pair (fun q =>
    if i + q < closes.length then some (pyRound2 (forward_return closes i q)) else none)]
  split
  · rfl
  · rfl

theorem mem_calculate_returns (closes : List ℚ) (signals : List Bool)
    (periods : List ℕ) (maxS : ℕ) (r : RetRow) :
    r ∈ calculate_returns closes signals periods maxS →
      r.idx + maxNat periods < closes.length ∧
      r.rets = periods.map (fun p =>
        (p, if r.idx + p < closes.length then some (forward_return closes r.idx p) else none)) := by
  intro hr
  unfold calculate_returns at hr
  rcases List.mem_filterMap.mp hr with ⟨i, _, hf⟩
  by_cases hskip : closes.length ≤ i + maxNat periods
  · rw [if_pos hskip] at hf; exact absurd hf (by simp)
  · rw [if_neg hskip] at hf
    have hri : r = ⟨i, periods.map (fun p =>
        (p, if i + p < closes.length then some (forward_return closes i p) else none))⟩ :=
      (Option.some.injEq _ _).mp hf |>.symm
    subst hri
    exact ⟨lt_of_not_le hskip, rfl⟩

theorem mem_calculate_returns_mc (closes : List ℚ) (signals : List Bool)
    (periods : List ℕ) (maxS : ℕ) (r : RetRow) :
    r ∈ calculate_returns_mc closes signals periods maxS →
      r.idx + maxNat periods < closes.length ∧
      r.rets = periods.map (fun p =>
        (p, if r.idx + p < closes.length then some (pyRound2 (forward_return closes r.idx p)) else none)) := by
  intro hr
  unfold calculate_returns_mc at hr
  rcases List.mem_filterMap.mp hr with ⟨i, _, hf⟩
  by_cases hskip : closes.length ≤ i + maxNat periods
  · rw [if_pos hskip] at hf; exact absurd hf (by simp)
  · rw [if_neg hskip] at hf
    have hri : r = ⟨i, periods.map (fun p =>
        (p, if i + p < closes.length then some (pyRound2 (forward_return closes i p)) else none))⟩ :=
      (Option.some.injEq _ _).mp hf |>.symm
    subst hri
    exact ⟨lt_of_not_le hskip, rfl⟩

theorem roundHalfEven_bounds (y : ℚ) (h0 : 0 ≤ y) (h1 : y ≤ 10000) :
    0 ≤ roundHalfEven y ∧ roundHalfEven y ≤ 10000 := by
  have hf0 : (0:ℤ) ≤ ⌊y⌋ := Int.floor_nonneg.mpr h0
  have hf1 : ⌊y⌋ ≤ 10000 := by
    have h := Int.floor_le_floor h1
    simpa using h
  have hstep : 1/2 ≤ y - ⌊y⌋ → ⌊y⌋ + 1 ≤ 10000 := by
    intro hy2
    rcases lt_or_eq_of_le hf1 with hlt | heq
    · omega
    · exfalso
      have hc : ((⌊y⌋ : ℚ)) = 10000 := by exact_mod_cast heq
      have hfl : ((⌊y⌋ : ℚ)) ≤ y := Int.floor_le y
      linarith
  unfold roundHalfEven
  split
  · exact ⟨hf0, hf1⟩
  · split
    · constructor
      · omega
      · exact hstep (by linarith)
    · split
      · exact ⟨hf0, hf1⟩
      · constructor
        · omega
        · exact hstep (by linarith)

theorem pyRound2_bounds (x : ℚ) (h0 : 0 ≤ x) (h1 : x ≤ 100) :
    0 ≤ pyRound2 x ∧ pyRound2 x ≤ 100 := by
  have hy0 : 0 ≤ x * 100 := by positivity
  have hy1 : x * 100 ≤ 10000 := by nlinarith
  obtain ⟨hr0, hr1⟩ := roundHalfEven_bounds (x * 100) hy0 hy1
  constructor
  · unfold pyRound2
    exact div_nonneg (by exact_mod_cast hr0) (by norm_num)
  · unfold pyRound2
    rw [div_le_iff₀ (by norm_num : (0:ℚ) < 100)]
    have : ((roundHalfEven (x * 100) : ℚ)) ≤ 10000 := by exact_mod_cast hr1
    linarith

theorem success_rate_bounds_aux (rows : List RetRow) (p : ℕ) :
    0 ≤ success_rate rows p ∧ success_rate rows p ≤ 100 := by
  unfold success_rate
  split
  · rename_i h
    have hlen : ((individual_returns rows p).filter (fun x => decide (0 < x))).length ≤
        test_count rows p := List.length_filter_le _ _
    have hb : (0:ℚ) < (test_count rows p : ℚ) := by exact_mod_cast h
    constructor
    · positivity
    · have hq : ((((individual_returns rows p).filter (fun x => decide (0 < x))).length : ℚ))
          / (test_count rows p : ℚ) ≤ 1 := (div_le_one hb).mpr (by exact_mod_cast hlen)
      nlinarith
  · norm_num

theorem success_rate_mc_bounds_aux (rows : List RetRow) (p : ℕ) :
    0 ≤ success_rate_mc rows p ∧ success_rate_mc rows p ≤ 100 := by
  unfold success_rate_mc
  split
  · rename_i h
    have hlen : ((individual_returns rows p).filter (fun x => decide (x < 0))).length ≤
        test_count rows p := List.length_filter_le _ _
    have hb : (0:ℚ) < (test_count rows p : ℚ) := by exact_mod_cast h
    have hq : ((((individual_returns rows p).filter (fun x => decide (x < 0))).length : ℚ))
        / (test_count rows p : ℚ) ≤ 1 := (div_le_one hb).mpr (by exact_mod_cast hlen)
    apply pyRound2_bounds
    · positivity
    · nlinarith
  · norm_num

theorem test_count_le_rows (rows : List RetRow) (p : ℕ) :
    test_count rows p ≤ rows.length := List.length_filterMap_le _ _

theorem mem_insertTs (b x : Bar) (l : List Bar) : x ∈ insertTs b l ↔ x = b ∨ x ∈ l := by
  induction l with
  | nil => simp [insertTs]
  | cons a l ih =>
    unfold insertTs
    split
    · simp [List.mem_cons]
    · simp only [List.mem_cons, ih]
      tauto

theorem mem_sortBars (x : Bar) (l : List Bar) : x ∈ sortBars l ↔ x ∈ l := by
  induction l with
  | nil => simp [sortBars]
  | cons a l ih =>
    unfold sortBars
    rw [mem_insertTs, ih, List.mem_cons]

theorem transform_data_of_empty (width : ℕ) : transform_data width [] = .ok [] := rfl

theorem transform_data_session_empty (width : ℕ) (bars : List Bar) (hne : bars ≠ [])
    (hout : ∀ b ∈ bars, inSession b = false) :
    transform_data width bars = .error ("No objects to concatenate") := by
  have hs : (sortBars bars).filter inSession = [] :=
    List.filter_eq_nil_iff.mpr (fun b hb => by
      rw [mem_sortBars] at hb
      simp [hout b hb])
  unfold transform_data
  rw [if_neg (by simpa [List.isEmpty_iff] using hne)]
  rw [hs]
  rfl

/-! ### Claim theorems -/

/-- C4: in calculate_returns, a signal occurrence at index i with
i + max(periods) at or past the end of the series is skipped entirely and
contributes to no row; every emitted row records, per horizon, a defined
forward return exactly when the future bar at i + h exists and NaN (none)
otherwise; and test_count counts exactly the rows whose return at the
horizon is defined, so an undefined return raises no count and records no
zero return. -/
theorem calculate_returns_skip_discipline :
    ∀ (closes : List ℚ) (signals : List Bool) (periods : List ℕ) (maxS : ℕ),
      (∀ r ∈ calculate_returns closes signals periods maxS,
        r.idx + maxNat periods < closes.length) ∧
      (∀ i ∈ limitLast maxS (signalIndices closes.length signals),
        closes.length ≤ i + maxNat periods →
        ∀ r ∈ calculate_returns closes signals periods maxS, r.idx ≠ i) ∧
      (∀ p ∈ periods, ∀ r ∈ calculate_returns closes signals periods maxS,
        retAt r p = if r.idx + p < closes.length
          then some (forward_return closes r.idx p) else none) ∧
      (∀ p, test_count (calculate_returns closes signals periods maxS) p =
        ((calculate_returns closes signals periods maxS).filter
          (fun r => (retAt r p).isSome)).length) := by
  intro closes signals periods maxS
  refine ⟨?_, ?_, ?_, ?_⟩
  · intro r hr
    exact (mem_calculate_returns _ _ _ _ _ hr).1
  · intro i _ hskip r hr hEq
    have h1 := (mem_calculate_returns _ _ _ _ _ hr).1
    rw [hEq] at h1
    exact absurd h1 (not_lt.mpr hskip)
  · intro p hp r hr
    obtain ⟨_, hrets⟩ := mem_calculate_returns _ _ _ _ _ hr
    simp [retAt, hrets, lookup_map_pair, hp]
  · intro p
    exact length_filterMap_eq_length_filter _ _

/-- C4 witness: instantiation of the per-horizon clause at the single
emitted row of the worked example. -/
theorem calculate_returns_skip_discipline_witness :
    (10 : ℕ) ∈ [10] ∧
    retAt ⟨0, [(10, some 10)]⟩ 10 =
      if (⟨0, [(10, some 10)]⟩ : RetRow).idx + 10 < cdExampleCloses.length
        then some (forward_return cdExampleCloses (⟨0, [(10, some 10)]⟩ : RetRow).idx 10)
        else none :=
  ⟨by decide,
   (calculate_returns_skip_discipline cdExampleCloses cdExampleSignals [10] 10).2.2.1 10
     (by decide) ⟨0, [(10, some 10)]⟩ (by with_unfolding_all decide)⟩

/-- C5: every recorded forward return equals (exit - entry) / entry * 100
measured from the close at the signal bar (rounded to two decimals in the MC
evaluator), and the success classification is directional, demonstrated on
the worked examples: a CD occurrence with entry 100 and exit 110 at horizon
10 records return 10 and success rate 100, while an MC occurrence with entry
100 and exit 90 records return -10 and MC success rate 100. -/
theorem forward_return_formula_and_direction :
    (∀ (closes : List ℚ) (signals : List Bool) (periods : List ℕ) (maxS : ℕ),
      ∀ r ∈ calculate_returns closes signals periods maxS, ∀ p x, retAt r p = some x →
        x = (closes.getD (r.idx + p) 0 - closes.getD r.idx 0) / closes.getD r.idx 0 * 100) ∧
    (∀ (closes : List ℚ) (signals : List Bool) (periods : List ℕ) (maxS : ℕ),
      ∀ r ∈ calculate_returns_mc closes signals periods maxS, ∀ p x, retAt r p = some x →
        x = pyRound2 ((closes.getD (r.idx + p) 0 - closes.getD r.idx 0)
          / closes.getD r.idx 0 * 100)) ∧
    individual_returns (calculate_returns cdExampleCloses cdExampleSignals [10] 10) 10 = [10] ∧
    success_rate (calculate_returns cdExampleCloses cdExampleSignals [10] 10) 10 = 100 ∧
    individual_returns (calculate_returns_mc mcExampleCloses cdExampleSignals [10] 7) 10 = [-10] ∧
    success_rate_mc (calculate_returns_mc mcExampleCloses cdExampleSignals [10] 7) 10 = 100 := by
  refine ⟨?_, ?_, by with_unfolding_all decide, by with_unfolding_all decide,
    by with_unfolding_all decide, by with_unfolding_all decide⟩
  · intro closes signals periods maxS r hr p x hx
    obtain ⟨_, hrets⟩ := mem_calculate_returns _ _ _ _ _ hr
    rw [show retAt r p = (r.rets.lookup p).bind id from rfl, hrets, lookup_map_pair] at hx
    by_cases hp : p ∈ periods
    · rw [if_pos hp, Option.some_bind, id_eq] at hx
      by_cases hfut : r.idx + p < closes.length
      · rw [if_pos hfut] at hx
        exact ((Option.some.injEq _ _).mp hx).symm
      · rw [if_neg hfut] at hx
        exact absurd hx (by simp)
    · rw [if_neg hp, Option.none_bind] at hx
      exact absurd hx (by simp)
  · intro closes signals periods maxS r hr p x hx
    obtain ⟨_, hrets⟩ := mem_calculate_returns_mc _ _ _ _ _ hr
    rw [show retAt r p = (r.rets.lookup p).bind id from rfl, hrets, lookup_map_pair] at hx
    by_cases hp : p ∈ periods
    · rw [if_pos hp, Option.some_bind, id_eq] at hx
      by_cases hfut : r.idx + p < closes.length
      · rw [if_pos hfut] at hx
        exact ((Option.some.injEq _ _).mp hx).symm
      · rw [if_neg hfut] at hx
        exact absurd hx (by simp)
    · rw [if_neg hp, Option.none_bind] at hx
      exact absurd hx (by simp)

/-- C5 witness: the CD formula clause applied to the worked example row. -/
theorem forward_return_formula_witness :
    (10 : ℚ) = (cdExampleCloses.getD ((⟨0, [(10, some 10)]⟩ : RetRow).idx + 10) 0 -
        cdExampleCloses.getD (⟨0, [(10, some 10)]⟩ : RetRow).idx 0) /
        cdExampleCloses.getD (⟨0, [(10, some 10)]⟩ : RetRow).idx 0 * 100 :=
  forward_return_formula_and_direction.1 cdExampleCloses cdExampleSignals [10] 10
    ⟨0, [(10, some 10)]⟩ (by with_unfolding_all decide) 10 10 (by with_unfolding_all decide)

/-- C8: for every horizon of either evaluator, the success rate lies between
0 and 100 and the number of tested occurrences never exceeds the signal
count. -/
theorem evaluate_interval_metric_invariants :
    ∀ (closes : List ℚ) (signals : List Bool) (periods : List ℕ) (maxS p : ℕ),
      (0 ≤ success_rate (calculate_returns closes signals periods maxS) p ∧
        success_rate (calculate_returns closes signals periods maxS) p ≤ 100 ∧
        test_count (calculate_returns closes signals periods maxS) p ≤
          signal_count closes.length signals) ∧
      (0 ≤ success_rate_mc (calculate_returns_mc closes signals periods maxS) p ∧
        success_rate_mc (calculate_returns_mc closes signals periods maxS) p ≤ 100 ∧
        test_count (calculate_returns_mc closes signals periods maxS) p ≤
          signal_count closes.length signals) := by
  intro closes signals periods maxS p
  obtain ⟨h1, h2⟩ := success_rate_bounds_aux (calculate_returns closes signals periods maxS) p
  obtain ⟨h3, h4⟩ := success_rate_mc_bounds_aux (calculate_returns_mc closes signals periods maxS) p
  exact ⟨⟨h1, h2, le_trans (test_count_le_rows _ _) (length_calculate_returns _ _ _ _)⟩,
    ⟨h3, h4, le_trans (test_count_le_rows _ _) (length_calculate_returns_mc _ _ _ _)⟩⟩

/-- C9: resampling is a pure function of its input, so re-deriving a target
timeframe twice from the same unmodified base sequence yields identical
output. -/
theorem resample_rederivation_stable :
    ∀ (hours minutes : ℕ) (bars bars2 : List Bar), bars = bars2 →
      transform_1h_data hours bars = transform_1h_data hours bars2 ∧
      transform_5m_data minutes bars = transform_5m_data minutes bars2 := by
  intro _ _ _ _ h
  subst h
  exact ⟨rfl, rfl⟩

/-- C9 witness: the two-run equality at a concrete base sequence. -/
theorem resample_rederivation_stable_witness :
    transform_1h_data 2 c6Bars = transform_1h_data 2 c6Bars ∧
    transform_5m_data 10 c6Bars = transform_5m_data 10 c6Bars :=
  resample_rederivation_stable 2 10 c6Bars c6Bars rfl

/-- C10: the resamplers return an empty frame without error on literally
empty input, but fail on every nonempty input whose timestamps all fall
outside the 09:30-16:00 session window, because the final concatenation is
applied to an empty list of per-day frames. -/
theorem transform_session_window_errors :
    ∀ (width : ℕ) (bars : List Bar),
      (bars = [] →
        transform_1h_data width bars = .ok [] ∧ transform_5m_data width bars = .ok []) ∧
      (bars ≠ [] → (∀ b ∈ bars, inSession b = false) →
        transform_1h_data width bars = .error ("No objects to concatenate") ∧
        transform_5m_data width bars = .error ("No objects to concatenate")) := by
  intro width bars
  constructor
  · intro h
    subst h
    exact ⟨transform_data_of_empty _, transform_data_of_empty _⟩
  · intro hne hout
    exact ⟨transform_data_session_empty _ _ hne hout, transform_data_session_empty _ _ hne hout⟩

/-- C10 witness: the empty input and a single pre-market bar. -/
theorem transform_session_window_errors_witness :
    (transform_1h_data 2 [] = .ok [] ∧ transform_5m_data 2 [] = .ok []) ∧
    (transform_1h_data 2 [⟨400, 1, 2, 1, 2, 10⟩] = .error ("No objects to concatenate") ∧
      transform_5m_data 2 [⟨400, 1, 2, 1, 2, 10⟩] = .error ("No objects to concatenate")) :=
  ⟨(transform_session_window_errors 2 []).1 rfl,
   (transform_session_window_errors 2 [⟨400, 1, 2, 1, 2, 10⟩]).2 (by simp)
     (by with_unfolding_all decide)⟩

theorem mem_resampleDay (width : ℕ) (bars1d : List Bar) (d : ℕ) (o : OutBar) :
    o ∈ resampleDay width bars1d d →
      ∃ k, k ∈ uniqueFirst (bars1d.map (bucketIdx width)) ∧
        o = aggBucket d k (bars1d.filter (fun b => bucketIdx width b = k)) := by
  intro ho
  unfold resampleDay at ho
  rcases List.mem_map.mp ho with ⟨k, hk, hko⟩
  exact ⟨k, hk, hko.symm⟩

/-- C6: every output bucket of the resamplers aggregates exactly the
session bars of one calendar date that fall into its bucket: open is the
first, high the maximum, low the minimum, close the last and volume the sum
of the constituent base bars; the constituent list is nonempty (a bucket
whose OHLC cannot be computed is never emitted); and every constituent lies
inside the session window on that single date, between the 09:30-anchored
bucket boundaries. -/
theorem resample_bucket_aggregation :
    ∀ (width : ℕ) (bars : List Bar) (out : List OutBar), 0 < width →
      transform_data width bars = .ok out →
      ∀ o ∈ out,
        ((sortBars bars).filter inSession).filter
            (fun b => decide (barDay b = o.day) && decide (bucketIdx width b = o.bucket)) ≠ [] ∧
        o.Open = ((((sortBars bars).filter inSession).filter
            (fun b => decide (barDay b = o.day) && decide (bucketIdx width b = o.bucket))).head?.elim
            0 Bar.Open) ∧
        o.High = listMaxQ ((((sortBars bars).filter inSession).filter
            (fun b => decide (barDay b = o.day) && decide (bucketIdx width b = o.bucket))).map
            Bar.High) ∧
        o.Low = listMinQ ((((sortBars bars).filter inSession).filter
            (fun b => decide (barDay b = o.day) && decide (bucketIdx width b = o.bucket))).map
            Bar.Low) ∧
        o.Close = (((((sortBars bars).filter inSession).filter
            (fun b => decide (barDay b = o.day) && decide (bucketIdx width b = o.bucket))).getLast?).elim
            0 Bar.Close) ∧
        o.Volume = listSumQ ((((sortBars bars).filter inSession).filter
            (fun b => decide (barDay b = o.day) && decide (bucketIdx width b = o.bucket))).map
            Bar.Volume) ∧
        ∀ b ∈ (((sortBars bars).filter inSession).filter
            (fun b => decide (barDay b = o.day) && decide (bucketIdx width b = o.bucket))),
          barDay b = o.day ∧ inSession b = true ∧
          570 + o.bucket * width ≤ b.ts % 1440 ∧ b.ts % 1440 < 570 + (o.bucket + 1) * width := by
  intro width bars out hw htr o ho
  by_cases hbe : bars.isEmpty
  · unfold transform_data at htr
    rw [if_pos hbe] at htr
    cases htr
    exact absurd ho (by simp)
  · unfold transform_data at htr
    rw [if_neg hbe] at htr
    by_cases hde : (uniqueFirst (((sortBars bars).filter inSession).map barDay)).isEmpty
    · rw [if_pos hde] at htr
      exact absurd htr (by simp)
    · rw [if_neg hde] at htr
      have hout : out = ((uniqueFirst (((sortBars bars).filter inSession).map barDay)).map
          (fun d => resampleDay width (dayBars ((sortBars bars).filter inSession) d) d)).flatten := by
        cases htr; rfl
      subst hout
      rcases List.mem_flatten.mp ho with ⟨grp, hgrp, hog⟩
      rcases List.mem_map.mp hgrp with ⟨d, hd, hdg⟩
      subst hdg
      rcases mem_resampleDay _ _ _ _ hog with ⟨k, hk, hob⟩
      set s := (sortBars bars).filter inSession with hsdef
      have hcs : (dayBars s d).filter (fun b => bucketIdx width b = k) =
          s.filter (fun b => decide (barDay b = d) && decide (bucketIdx width b = k)) := by
        unfold dayBars
        rw [List.filter_filter]
        apply List.filter_congr
        intro b _
        exact Bool.and_comm _ _
      have hday : o.day = d := by rw [hob]; rfl
      have hbucket : o.bucket = k := by rw [hob]; rfl
      rw [hday, hbucket, ← hcs]
      refine ⟨?_, ?_, ?_, ?_, ?_, ?_, ?_⟩
      · rcases (mem_uniqueFirst _ _).mp hk with hkm
        rcases List.mem_map.mp hkm with ⟨b, hb, hbk⟩
        intro hnil
        have hbmem : b ∈ (dayBars s d).filter (fun b => bucketIdx width b = k) :=
          List.mem_filter.mpr ⟨hb, by simp [hbk]⟩
        rw [hnil] at hbmem
        exact absurd hbmem (by simp)
      · rw [hob]; rfl
      · rw [hob]; rfl
      · rw [hob]; rfl
      · rw [hob]; rfl
      · rw [hob]; rfl
      · intro b hb
        have hb2 := List.mem_filter.mp hb
        have hbday : b ∈ dayBars s d := hb2.1
        have hbk : bucketIdx width b = k := by simpa using hb2.2
        have hbd : barDay b = d := by
          have := (List.mem_filter.mp hbday).2
          simpa using this
        have hbs : b ∈ s := (List.mem_filter.mp hbday).1
        have hses : inSession b = true := (List.mem_filter.mp hbs).2
        have htod : 570 ≤ b.ts % 1440 ∧ b.ts % 1440 ≤ 960 := by
          have h5 := (List.mem_filter.mp hbs).2
          unfold inSession at h5
          simp at h5
          exact ⟨h5.1, h5.2⟩
        have h1 : k * width ≤ b.ts % 1440 - 570 := by
          rw [← hbk]
          unfold bucketIdx
          exact Nat.div_mul_le_self _ _
        have h2 : b.ts % 1440 - 570 < (b.ts % 1440 - 570) / width * width + width :=
          Nat.lt_div_mul_add hw
        rw [show (b.ts % 1440 - 570) / width = k from hbk] at h2
        refine ⟨hbd, hses, ?_, ?_⟩
        · calc 570 + k * width ≤ 570 + (b.ts % 1440 - 570) := Nat.add_le_add_left h1 570
            _ = b.ts % 1440 := Nat.add_sub_cancel' htod.1
        · have h7 : b.ts % 1440 < 570 + (k * width + width) :=
            (Nat.sub_lt_iff_lt_add htod.1).mp h2
          have h8 : 570 + (k + 1) * width = 570 + (k * width + width) := by ring
          rw [h8]
          exact h7

/-- C6 witness: the aggregation clauses at the first output bucket of a
concrete four-bar input resampled to 120 minutes. -/
theorem resample_bucket_aggregation_witness :
    (0 < 120) ∧
    (⟨10, 0, 5, 10, 4, 7, 150⟩ : OutBar) ∈
      [(⟨10, 0, 5, 10, 4, 7, 150⟩ : OutBar), ⟨10, 1, 7, 12, 6, 8, 25⟩] ∧
    ((sortBars c6Bars).filter inSession).filter
      (fun b => decide (barDay b = (⟨10, 0, 5, 10, 4, 7, 150⟩ : OutBar).day) &&
        decide (bucketIdx 120 b = (⟨10, 0, 5, 10, 4, 7, 150⟩ : OutBar).bucket)) ≠ [] :=
  ⟨by decide, by with_unfolding_all decide,
   (resample_bucket_aggregation 120 c6Bars
     [⟨10, 0, 5, 10, 4, 7, 150⟩, ⟨10, 1, 7, 12, 6, 8, 25⟩]
     (by decide) (by with_unfolding_all decide)
     ⟨10, 0, 5, 10, 4, 7, 150⟩ (by with_unfolding_all decide)).1⟩

theorem foldl_preserves {σ β : Type _} (f : σ → β → σ) (P : σ → Prop) :
    ∀ (l : List β) (init : σ), P init → (∀ s b, b ∈ l → P s → P (f s b)) →
      P (l.foldl f init) := by
  intro l
  induction l with
  | nil => intro init h _; exact h
  | cons a l ih =>
    intro init h hstep
    exact ih (f init a) (hstep init a (List.mem_cons_self a l) h)
      (fun s b hb => hstep s b (List.mem_cons_of_mem a hb))

theorem pairwise_gt_uniqueFirstAux (l : List ℕ) :
    ∀ seen, l.Pairwise (· ≥ ·) → (uniqueFirstAux seen l).Pairwise (· > ·) := by
  induction l with
  | nil => intro seen _; exact List.Pairwise.nil
  | cons a l ih =>
    intro seen hp
    rcases List.pairwise_cons.mp hp with ⟨ha, hl⟩
    unfold uniqueFirstAux
    split
    · exact ih _ hl
    · refine List.pairwise_cons.mpr ⟨?_, ih _ hl⟩
      intro b hb
      rcases (mem_uniqueFirstAux _ _ _).mp hb with ⟨hbl, hbs⟩
      have hne : b ≠ a := fun h => hbs (h ▸ List.mem_cons_self a seen)
      exact lt_of_le_of_ne (ha b hbl) hne

theorem unique_dates_sorted (rows : List SigRow)
    (h : (rows.map rowDate).Pairwise (· ≥ ·)) :
    (unique_dates rows).Pairwise (· < ·) := by
  unfold unique_dates uniqueFirst
  rw [List.pairwise_reverse]
  exact pairwise_gt_uniqueFirstAux _ _ h

theorem get_lt_of_pairwise (u : List ℕ) (hu : u.Pairwise (· < ·)) (i j : Fin u.length)
    (h : i < j) : u.get i < u.get j :=
  List.pairwise_iff_get.mp hu i j h

theorem get_le_of_pairwise (u : List ℕ) (hu : u.Pairwise (· < ·)) (i j : Fin u.length)
    (h : i.1 ≤ j.1) : u.get i ≤ u.get j := by
  rcases lt_or_eq_of_le h with hlt | heq
  · exact le_of_lt (get_lt_of_pairwise u hu i j hlt)
  · have : i = j := Fin.ext heq
    rw [this]

theorem mem_posWindow (u : List ℕ) (i : ℕ) (d : ℕ) :
    d ∈ posWindow u i ↔ ∃ m, m < 3 ∧ i + m < u.length ∧ u.getD (i + m) 0 = d := by
  unfold posWindow
  rw [List.mem_filterMap]
  constructor
  · rintro ⟨m, hm, hif⟩
    by_cases hlt : i + m < u.length
    · rw [if_pos hlt] at hif
      exact ⟨m, List.mem_range.mp hm, hlt, (Option.some.injEq _ _).mp hif⟩
    · rw [if_neg hlt] at hif
      exact absurd hif (by simp)
  · rintro ⟨m, hm3, hlt, hget⟩
    exact ⟨m, List.mem_range.mpr hm3, by rw [if_pos hlt, hget]⟩

theorem contains_eq_true_iff {α : Type _} [BEq α] [LawfulBEq α] (l : List α) (a : α) :
    l.contains a = true ↔ a ∈ l := by
  simp

theorem window_data_eq_posWindow (rows : List SigRow)
    (h : (rows.map rowDate).Pairwise (· ≥ ·)) (i : ℕ)
    (hi : i < (unique_dates rows).length) :
    window_data rows (unique_dates rows) i =
      rows.filter (fun r => (posWindow (unique_dates rows) i).contains (rowDate r)) := by
  have hu : (unique_dates rows).Pairwise (· < ·) := unique_dates_sorted rows h
  set u := unique_dates rows with hudef
  unfold window_data
  apply List.filter_congr
  intro r hr
  have hd : rowDate r ∈ u := by
    rw [hudef]
    unfold unique_dates
    rw [List.mem_reverse, mem_uniqueFirst]
    exact List.mem_map_of_mem rowDate hr
  rcases List.mem_iff_get.mp hd with ⟨jf, hjf⟩
  have hlen0 : 0 < u.length := lt_of_le_of_lt (Nat.zero_le i) hi
  have hi2 : min (i + 2) (u.length - 1) < u.length := by omega
  rw [Bool.eq_iff_iff]
  rw [contains_eq_true_iff, mem_posWindow]
  simp only [Bool.and_eq_true, decide_eq_true_eq]
  constructor
  · rintro ⟨h1, h2⟩
    have hij : i ≤ jf.1 := by
      by_contra hcon
      push_neg at hcon
      have hlt := get_lt_of_pairwise u hu jf ⟨i, hi⟩ hcon
      rw [hjf] at hlt
      rw [List.getD_eq_get u 0 hi] at h1
      exact absurd h1 (not_le.mpr hlt)
    have hji : jf.1 ≤ min (i + 2) (u.length - 1) := by
      by_contra hcon
      push_neg at hcon
      have hlt := get_lt_of_pairwise u hu ⟨min (i + 2) (u.length - 1), hi2⟩ jf hcon
      rw [hjf] at hlt
      rw [List.getD_eq_get u 0 hi2] at h2
      exact absurd h2 (not_le.mpr hlt)
    refine ⟨jf.1 - i, by omega, by omega, ?_⟩
    have him : i + (jf.1 - i) = jf.1 := by omega
    rw [him, List.getD_eq_get u 0 jf.2]
    exact hjf
  · rintro ⟨m, hm3, hlt, hget⟩
    rw [List.getD_eq_get u 0 hlt] at hget
    constructor
    · rw [List.getD_eq_get u 0 hi]
      have hle := get_le_of_pairwise u hu ⟨i, hi⟩ ⟨i + m, hlt⟩ (Nat.le_add_right i m)
      rw [← hget]
      exact hle
    · rw [List.getD_eq_get u 0 hi2]
      have hmin : i + m ≤ min (i + 2) (u.length - 1) :=
        le_min (by omega) (by omega)
      have hle := get_le_of_pairwise u hu ⟨i + m, hlt⟩ ⟨min (i + 2) (u.length - 1), hi2⟩ hmin
      rw [← hget]
      exact hle

theorem stepTicker_eq_or_append (required : List String) (wd : List SigRow)
    (st : List Candidate × List (String × ℕ)) (t : String) :
    stepTicker required wd st t = st ∨
    (3 ≤ score_of required (wd.filter (fun r => decide (r.ticker = t))) ∧
     (t, maxTs (wd.filter (fun r => decide (r.ticker = t))) / 1440) ∉ st.2 ∧
     stepTicker required wd st t =
       (st.1 ++ [⟨t, maxTs (wd.filter (fun r => decide (r.ticker = t))) / 1440,
          score_of required (wd.filter (fun r => decide (r.ticker = t))),
          (idxmaxRow (wd.filter (fun r => decide (r.ticker = t)))).map SigRow.signal_price⟩],
        st.2 ++ [(t, maxTs (wd.filter (fun r => decide (r.ticker = t))) / 1440)])) := by
  unfold stepTicker
  dsimp only
  split
  · split
    · left; rfl
    · rename_i hsc hmem
      right
      refine ⟨hsc, ?_, rfl⟩
      intro hc
      exact hmem (contains_eq_true_iff _ _ |>.mpr hc)
  · left; rfl

theorem breakout_candidates_window_score (required : List String) (rows0 : List SigRow)
    (h : ((requiredRows required rows0).map rowDate).Pairwise (· ≥ ·)) :
    ∀ c ∈ breakout_candidates required rows0,
      ∃ i ∈ List.range (unique_dates (requiredRows required rows0)).length,
        3 ≤ posWindowScore required (requiredRows required rows0) c.ticker i := by
  unfold breakout_candidates
  set rows := requiredRows required rows0 with hrows
  set u := unique_dates rows with hu
  have hmain : (∀ c ∈ (((List.range u.length).foldl (stepWindow required rows u) ([], []))).1,
      ∃ i ∈ List.range u.length, 3 ≤ posWindowScore required rows c.ticker i) := by
    apply foldl_preserves (stepWindow required rows u)
      (fun st => ∀ c ∈ st.1, ∃ i ∈ List.range u.length, 3 ≤ posWindowScore required rows c.ticker i)
    · intro c hc
      exact absurd hc (by simp)
    · intro s i hi hs
      unfold stepWindow
      apply foldl_preserves (stepTicker required (window_data rows u i))
        (fun st => ∀ c ∈ st.1, ∃ j ∈ List.range u.length, 3 ≤ posWindowScore required rows c.ticker j)
      · exact hs
      · intro s2 t _ hs2 c hc
        rcases stepTicker_eq_or_append required (window_data rows u i) s2 t with heq | ⟨hsc, _, heq⟩
        · rw [heq] at hc
          exact hs2 c hc
        · rw [heq] at hc
          rcases List.mem_append.mp hc with hold | hnew
          · exact hs2 c hold
          · have hceq : c = ⟨t, maxTs ((window_data rows u i).filter (fun r => decide (r.ticker = t))) / 1440,
                score_of required ((window_data rows u i).filter (fun r => decide (r.ticker = t))),
                (idxmaxRow ((window_data rows u i).filter (fun r => decide (r.ticker = t)))).map
                  SigRow.signal_price⟩ := by
              simpa using hnew
            refine ⟨i, hi, ?_⟩
            have hwd : window_data rows u i =
                rows.filter (fun r => (posWindow u i).contains (rowDate r)) :=
              window_data_eq_posWindow rows h i (List.mem_range.mp hi)
            unfold posWindowScore
            rw [← hu]
            have hff : (rows.filter (fun r => (posWindow u i).contains (rowDate r))).filter
                (fun r => decide (r.ticker = t)) =
                rows.filter (fun r => decide (r.ticker = t) && (posWindow u i).contains (rowDate r)) := by
              rw [List.filter_filter]
            rw [hceq]
            rw [← hff, ← hwd]
            exact hsc
  exact hmain

theorem breakout_candidates_nodup_keys (required : List String) (rows0 : List SigRow) :
    ((breakout_candidates required rows0).map (fun c => (c.ticker, c.date))).Nodup := by
  unfold breakout_candidates
  set rows := requiredRows required rows0
  set u := unique_dates rows
  have hmain : ((((List.range u.length).foldl (stepWindow required rows u) ([], []))).1.map
        (fun c => (c.ticker, c.date))).Nodup ∧
      ∀ c ∈ (((List.range u.length).foldl (stepWindow required rows u) ([], []))).1,
        (c.ticker, c.date) ∈ (((List.range u.length).foldl (stepWindow required rows u) ([], []))).2 := by
    apply foldl_preserves (stepWindow required rows u)
      (fun st => (st.1.map (fun c => (c.ticker, c.date))).Nodup ∧
        ∀ c ∈ st.1, (c.ticker, c.date) ∈ st.2)
    · exact ⟨List.nodup_nil, fun c hc => absurd hc (by simp)⟩
    · intro s i _ hs
      unfold stepWindow
      apply foldl_preserves (stepTicker required (window_data rows u i))
        (fun st => (st.1.map (fun c => (c.ticker, c.date))).Nodup ∧
          ∀ c ∈ st.1, (c.ticker, c.date) ∈ st.2)
      · exact hs
      · intro s2 t _ hs2
        rcases stepTicker_eq_or_append required (window_data rows u i) s2 t with heq | ⟨_, hnotin, heq⟩
        · rw [heq]; exact hs2
        · rw [heq]
          constructor
          · rw [List.map_append]
            rw [List.nodup_append]
            refine ⟨hs2.1, by simp, ?_⟩
            intro k hk1 hk2
            have hkey : k = (t, maxTs ((window_data rows u i).filter
                (fun r => decide (r.ticker = t))) / 1440) := by
              simpa using hk2
            rcases List.mem_map.mp hk1 with ⟨c, hc, hck⟩
            apply hnotin
            rw [← hkey, ← hck]
            exact hs2.2 c hc
          · intro c hc
            rcases List.mem_append.mp hc with hold | hnew
            · exact List.mem_append_left _ (hs2.2 c hold)
            · have hceq : c = ⟨t, maxTs ((window_data rows u i).filter (fun r => decide (r.ticker = t))) / 1440,
                  score_of required ((window_data rows u i).filter (fun r => decide (r.ticker = t))),
                  (idxmaxRow ((window_data rows u i).filter (fun r => decide (r.ticker = t)))).map
                    SigRow.signal_price⟩ := by
                simpa using hnew
              apply List.mem_append_right
              rw [hceq]
              simp
  exact hmain.1

/-- C3 (amended): for every input whose rows are ordered newest-first by
signal date (the order save_results writes and the detectors read), a
candidate keyed (ticker, date) is emitted only if some position-based date
window (list positions i through i+2 of the distinct dates) contains that
ticker's events in at least 3 distinct required intervals; each
(ticker, date) key is emitted at most once; and the spec example (ticker
XYZ, events on days 100, 100 and 101 at intervals 1h, 2h and 3h) yields
exactly one candidate (XYZ, day 101) with 3 contributing intervals. -/
theorem resonance_window_discipline :
    (∀ (required : List String) (rows0 : List SigRow),
      ((requiredRows required rows0).map rowDate).Pairwise (· ≥ ·) →
      (∀ c ∈ breakout_candidates required rows0,
        ∃ i ∈ List.range (unique_dates (requiredRows required rows0)).length,
          3 ≤ posWindowScore required (requiredRows required rows0) c.ticker i) ∧
      ((breakout_candidates required rows0).map (fun c => (c.ticker, c.date))).Nodup) ∧
    identify_1234_candidates c3ExampleRows =
      [{ ticker := "XYZ", date := 101, score := 3, signal_price := some 21 }] := by
  refine ⟨?_, by with_unfolding_all decide⟩
  intro required rows0 h
  exact ⟨breakout_candidates_window_score required rows0 h,
    breakout_candidates_nodup_keys required rows0⟩

/-- C3 witness: the general clause applied to the concrete newest-first
example input. -/
theorem resonance_window_discipline_witness :
    (∀ c ∈ breakout_candidates required_intervals_1234 c3ExampleRows,
      ∃ i ∈ List.range (unique_dates (requiredRows required_intervals_1234 c3ExampleRows)).length,
        3 ≤ posWindowScore required_intervals_1234
          (requiredRows required_intervals_1234 c3ExampleRows) c.ticker i) ∧
    ((breakout_candidates required_intervals_1234 c3ExampleRows).map
      (fun c => (c.ticker, c.date))).Nodup :=
  resonance_window_discipline.1 required_intervals_1234 c3ExampleRows
    (by with_unfolding_all decide)

/-- C3 counterexample: on an input whose dates are not ordered (days appear
as 107, 110, 100, 105), a candidate is emitted although no position-based
window of the distinct-date list gives its ticker 3 distinct required
intervals, because the code filters the window by date value range rather
than by list position. -/
theorem resonance_window_counterexample :
    ¬ (∀ c ∈ breakout_candidates required_intervals_1234 c3CexRows,
        ∃ i ∈ List.range (unique_dates (requiredRows required_intervals_1234 c3CexRows)).length,
          3 ≤ posWindowScore required_intervals_1234
            (requiredRows required_intervals_1234 c3CexRows) c.ticker i) := by
  with_unfolding_all decide

theorem getLast?_mem_of_eq_some {α : Type _} (l : List α) (a : α) (h : l.getLast? = some a) :
    a ∈ l := by
  have hx : a ∈ l.getLast? := Option.mem_def.mpr h
  rcases List.mem_getLast?_eq_getLast hx with ⟨hne, heq⟩
  rw [heq]
  exact List.getLast_mem hne

theorem traverseOpt_mem (l : List α) (f : α → Option β) :
    ∀ (out : List β), traverseOpt l f = some out → ∀ y ∈ out, ∃ x ∈ l, f x = some y := by
  induction l with
  | nil =>
    intro out h y hy
    simp only [traverseOpt] at h
    have : ([] : List β) = out := by simpa using h
    subst this
    exact absurd hy (by simp)
  | cons a l ih =>
    intro out h
    simp only [traverseOpt] at h
    split at h
    · rename_i y ys hfa htl
      have hys : y :: ys = out := by simpa using h
      subst hys
      intro z hz
      rcases List.mem_cons.mp hz with rfl | hzys
      · exact ⟨a, List.mem_cons_self a l, hfa⟩
      · rcases ih ys htl z hzys with ⟨x, hx, hfx⟩
        exact ⟨x, List.mem_cons_of_mem a hx, hfx⟩
    · exact absurd h (by simp)

theorem nx_tables_entries (refData : List (String × List (ℕ × ℚ))) (cands : List Candidate) :
    ∀ e ∈ nx_tables refData cands,
      lookupRef refData e.1 ≠ [] ∧ e.2 = nx_dict (lookupRef refData e.1) := by
  unfold nx_tables
  apply foldl_preserves
    (fun (acc : List (String × List (ℕ × Bool))) (t : String) =>
      if (lookupRef refData t).isEmpty then acc else acc ++ [(t, nx_dict (lookupRef refData t))])
    (fun acc => ∀ e ∈ acc, lookupRef refData e.1 ≠ [] ∧ e.2 = nx_dict (lookupRef refData e.1))
  · intro e he
    exact absurd he (by simp)
  · intro s t _ hs e he
    by_cases hemp : (lookupRef refData t).isEmpty
    · rw [if_pos hemp] at he
      exact hs e he
    · rw [if_neg hemp] at he
      rcases List.mem_append.mp he with hold | hnew
      · exact hs e hold
      · have heq : e = (t, nx_dict (lookupRef refData t)) := by simpa using hnew
        subst heq
        exact ⟨by simpa [List.isEmpty_iff] using hemp, rfl⟩

theorem mem_nx_dict (ref : List (ℕ × ℚ)) (kv : ℕ × Bool) (h : kv ∈ nx_dict ref) :
    ∃ i, i < ref.length ∧
      kv = ((ref.getD i (0, 0)).1,
        decide (ema_at 89 (ref.map Prod.snd) i < ema_at 24 (ref.map Prod.snd) i)) := by
  unfold nx_dict at h
  rcases List.mem_map.mp h with ⟨i, hir, heq⟩
  exact ⟨i, List.mem_range.mp hir, heq.symm⟩

/-- C7: every candidate surviving the confirmation stage has nonempty
reference data for its ticker (tickers lacking reference data are dropped,
never defaulted), and its nx flag is exactly the dictionary value at the
candidate date, which is the comparison EMA(span 24) of the reference close
series greater than EMA(span 89) evaluated at a reference bar whose calendar
date is the candidate date. -/
theorem nx_confirmation_per_ticker :
    ∀ (rows : List SigRow) (refData : List (String × List (ℕ × ℚ))) (out : List CandidateNx),
      identify_1234 rows refData = some out →
      ∀ c ∈ out,
        lookupRef refData c.ticker ≠ [] ∧
        dictGet (nx_dict (lookupRef refData c.ticker)) c.date = some c.nx_1d ∧
        (∃ i, i < (lookupRef refData c.ticker).length ∧
          ((lookupRef refData c.ticker).getD i (0, 0)).1 = c.date ∧
          c.nx_1d = decide (ema_at 89 ((lookupRef refData c.ticker).map Prod.snd) i <
            ema_at 24 ((lookupRef refData c.ticker).map Prod.snd) i)) := by
  intro rows refData out hid c hc
  unfold identify_1234 at hid
  dsimp only at hid
  obtain ⟨cand, hcandKept, hf⟩ := traverseOpt_mem _ _ _ hid c hc
  set tables := nx_tables refData (sortCands (identify_1234_candidates rows)) with htbl
  cases hgl : (tables.filter (fun e => e.1 = cand.ticker)).getLast? with
  | none =>
    rw [hgl] at hf
    simp [dictGet] at hf
  | some e =>
    have he := getLast?_mem_of_eq_some _ _ hgl
    have hef := List.mem_filter.mp he
    have hent := nx_tables_entries refData (sortCands (identify_1234_candidates rows)) e
      (by rw [htbl] at hef; exact hef.1)
    have heticker : e.1 = cand.ticker := by simpa using hef.2
    rw [hgl] at hf
    cases hdg : dictGet e.2 cand.date with
    | none =>
      rw [show Option.elim (some e) ([] : List (ℕ × Bool)) Prod.snd = e.2 from rfl, hdg] at hf
      simp at hf
    | some b =>
      rw [show Option.elim (some e) ([] : List (ℕ × Bool)) Prod.snd = e.2 from rfl, hdg] at hf
      have hceq : c = ⟨cand.ticker, cand.date, cand.score, cand.signal_price, b⟩ := by
        simpa using hf.symm
      have htbl2 : e.2 = nx_dict (lookupRef refData cand.ticker) := by
        rw [hent.2, heticker]
      have hne : lookupRef refData cand.ticker ≠ [] := by
        rw [← heticker]
        exact hent.1
      have hdict : dictGet (nx_dict (lookupRef refData cand.ticker)) cand.date = some b := by
        rw [← htbl2]
        exact hdg
      obtain ⟨entry, hentry, hentry2⟩ :
          ∃ entry, ((nx_dict (lookupRef refData cand.ticker)).filter
            (fun kv => decide (kv.1 = cand.date))).getLast? = some entry ∧ entry.2 = b := by
        unfold dictGet at hdict
        cases hgl2 : ((nx_dict (lookupRef refData cand.ticker)).filter
            (fun kv => decide (kv.1 = cand.date))).getLast? with
        | none => rw [hgl2] at hdict; simp at hdict
        | some entry =>
          rw [hgl2] at hdict
          exact ⟨entry, rfl, by simpa using hdict⟩
      have hentmem := List.mem_filter.mp (getLast?_mem_of_eq_some _ _ hentry)
      have hentdate : entry.1 = cand.date := by simpa using hentmem.2
      obtain ⟨i, hilen, hival⟩ := mem_nx_dict _ _ hentmem.1
      rw [hceq]
      refine ⟨hne, hdict, i, hilen, ?_, ?_⟩
      · have := congrArg Prod.fst hival
        simp only at this
        rw [← this]
        exact hentdate
      · have := congrArg Prod.snd hival
        simp only at this
        rw [← hentry2, this]

/-- C7 witness: the theorem applied to the concrete example where ticker XYZ
has a one-bar daily reference series on the candidate date. -/
theorem nx_confirmation_per_ticker_witness :
    lookupRef c7RefData "XYZ" ≠ [] ∧
    dictGet (nx_dict (lookupRef c7RefData "XYZ")) 101 = some false ∧
    (∃ i, i < (lookupRef c7RefData "XYZ").length ∧
      ((lookupRef c7RefData "XYZ").getD i (0, 0)).1 = 101 ∧
      false = decide (ema_at 89 ((lookupRef c7RefData "XYZ").map Prod.snd) i <
        ema_at 24 ((lookupRef c7RefData "XYZ").map Prod.snd) i)) :=
  nx_confirmation_per_ticker c3ExampleRows c7RefData
    [⟨"XYZ", 101, 3, some 21, false⟩] (by with_unfolding_all decide)
    ⟨"XYZ", 101, 3, some 21, false⟩ (by with_unfolding_all decide)

theorem ewmAt_neg (a : ℚ) (x : ℕ → ℚ) (i : ℕ) :
    ewmAt a (fun j => -(x j)) i = -(ewmAt a x i) := by
  induction i with
  | zero => simp [ewmAt]
  | succ n ih =>
    simp only [ewmAt, ih]
    ring

theorem closeFn_neg (closes : List ℚ) (j : ℕ) :
    closeFn (closes.map (fun x => -x)) j = -(closeFn closes j) := by
  unfold closeFn
  rcases lt_or_ge j closes.length with hj | hj
  · rw [List.getD_eq_get _ _ (by simpa using hj), List.getD_eq_get _ _ hj]
    simp
  · rw [List.getD_eq_default _ _ (by simpa using hj), List.getD_eq_default _ _ hj]
    norm_num

theorem fast_ema_neg (c : ℕ → ℚ) (i : ℕ) :
    fast_ema (fun j => -(c j)) i = -(fast_ema c i) := ewmAt_neg _ _ _

theorem slow_ema_neg (c : ℕ → ℚ) (i : ℕ) :
    slow_ema (fun j => -(c j)) i = -(slow_ema c i) := ewmAt_neg _ _ _

theorem diffQ_neg (c : ℕ → ℚ) (i : ℕ) :
    diffQ (fun j => -(c j)) i = -(diffQ c i) := by
  unfold diffQ
  rw [fast_ema_neg, slow_ema_neg]
  ring

theorem dea_neg (c : ℕ → ℚ) (i : ℕ) :
    dea (fun j => -(c j)) i = -(dea c i) := by
  unfold dea
  have hfun : diffQ (fun j => -(c j)) = fun j => -(diffQ c j) := funext (diffQ_neg c)
  rw [hfun, ewmAt_neg]

theorem mcd_neg (c : ℕ → ℚ) (i : ℕ) :
    mcd (fun j => -(c j)) i = -(mcd c i) := by
  unfold mcd
  rw [diffQ_neg, dea_neg]
  ring

theorem cross_down_neg (c : ℕ → ℚ) (i : ℕ) :
    cross_down (fun j => -(c j)) i = cross_up c i := by
  unfold cross_down cross_up
  rw [mcd_neg, mcd_neg]
  simp only [neg_nonneg, neg_lt_zero]

theorem cross_up_neg (c : ℕ → ℚ) (i : ℕ) :
    cross_up (fun j => -(c j)) i = cross_down c i := by
  unfold cross_up cross_down
  rw [mcd_neg, mcd_neg]
  simp only [neg_nonpos, neg_pos]

theorem n1_neg (c : ℕ → ℚ) (i : ℕ) : n1 (fun j => -(c j)) i = n1_mc c i := by
  unfold n1 n1_mc
  have hfun : cross_down (fun j => -(c j)) = cross_up c := funext (cross_down_neg c)
  rw [hfun]

theorem mm1_neg (c : ℕ → ℚ) (i : ℕ) : mm1 (fun j => -(c j)) i = mm1_mc c i := by
  unfold mm1 mm1_mc
  have hfun : cross_up (fun j => -(c j)) = cross_down c := funext (cross_up_neg c)
  rw [hfun]

theorem foldr_min_neg (l : List ℚ) (a : ℚ) :
    (l.map (fun x => -x)).foldr min (-a) = -(l.foldr max a) := by
  induction l with
  | nil => simp
  | cons x l ih =>
    simp only [List.map_cons, List.foldr_cons, ih]
    rw [min_neg_neg]

theorem llvAt_neg (g : ℕ → ℚ) (p i : ℕ) :
    llvAt (fun j => -(g j)) p i = -(hhvAt g p i) := by
  unfold llvAt hhvAt
  have hmm : (List.range p).map (fun k => -(g (i - k))) =
      ((List.range p).map (fun k => g (i - k))).map (fun x => -x) := by
    rw [List.map_map]
    rfl
  rw [hmm, foldr_min_neg]

theorem cc1_neg (c : ℕ → ℚ) (i : ℕ) : cc1 (fun j => -(c j)) i = -(hh1 c i) := by
  unfold cc1 hh1
  rw [n1_neg]
  exact llvAt_neg c _ i

theorem cc2_neg (c : ℕ → ℚ) (i : ℕ) :
    cc2 (fun j => -(c j)) i = (hh2 c i).map (fun x => -x) := by
  unfold cc2 hh2
  rw [mm1_neg]
  split
  · simp [cc1_neg]
  · rfl

theorem cc3_neg (c : ℕ → ℚ) (i : ℕ) :
    cc3 (fun j => -(c j)) i = (hh3 c i).map (fun x => -x) := by
  unfold cc3 hh3
  rw [mm1_neg]
  split
  · exact cc2_neg c _
  · rfl

theorem difl1_neg (c : ℕ → ℚ) (i : ℕ) : difl1 (fun j => -(c j)) i = -(difh1 c i) := by
  unfold difl1 difh1
  rw [n1_neg]
  have hfun : diffQ (fun j => -(c j)) = fun j => -(diffQ c j) := funext (diffQ_neg c)
  rw [hfun]
  exact llvAt_neg (diffQ c) _ i

theorem difl2_neg (c : ℕ → ℚ) (i : ℕ) :
    difl2 (fun j => -(c j)) i = (difh2 c i).map (fun x => -x) := by
  unfold difl2 difh2
  rw [mm1_neg]
  split
  · simp [difl1_neg]
  · rfl

theorem difl3_neg (c : ℕ → ℚ) (i : ℕ) :
    difl3 (fun j => -(c j)) i = (difh3 c i).map (fun x => -x) := by
  unfold difl3 difh3
  rw [mm1_neg]
  split
  · exact difl2_neg c _
  · rfl

theorem ltOpt_neg (a : ℚ) (b : Option ℚ) :
    ltOpt (-a) (b.map (fun x => -x)) = gtOpt a b := by
  cases b with
  | none => rfl
  | some v => simp [ltOpt, gtOpt]

theorem gtOpt_neg (a : ℚ) (b : Option ℚ) :
    gtOpt (-a) (b.map (fun x => -x)) = ltOpt a b := by
  cases b with
  | none => rfl
  | some v => simp [ltOpt, gtOpt]

theorem aaa_neg (c : ℕ → ℚ) (i : ℕ) : aaa (fun j => -(c j)) i = aaa_mc c i := by
  unfold aaa aaa_mc
  rw [cc1_neg, cc2_neg, ltOpt_neg, difl1_neg, difl2_neg, gtOpt_neg, mcd_neg, diffQ_neg]
  simp only [neg_lt_zero]

theorem bbb_neg (c : ℕ → ℚ) (i : ℕ) : bbb (fun j => -(c j)) i = bbb_mc c i := by
  unfold bbb bbb_mc
  rw [cc1_neg, cc3_neg, ltOpt_neg, difl1_neg, difl2_neg, ltOpt_neg, difl3_neg, gtOpt_neg,
    mcd_neg, diffQ_neg]
  simp only [neg_lt_zero]

theorem ccc_neg (c : ℕ → ℚ) (i : ℕ) : ccc (fun j => -(c j)) i = ccc_mc c i := by
  unfold ccc ccc_mc
  rw [aaa_neg, bbb_neg]

theorem jjj_neg (c : ℕ → ℚ) (i : ℕ) : jjj (fun j => -(c j)) i = jjj_mc c i := by
  unfold jjj jjj_mc
  rw [ccc_neg, diffQ_neg, diffQ_neg, abs_neg, abs_neg]

theorem dxdx_neg (c : ℕ → ℚ) (i : ℕ) : dxdx (fun j => -(c j)) i = dxdx_mc c i := by
  unfold dxdx dxdx_mc
  rw [jjj_neg, jjj_neg]

/-- C2: the modelled compute_mc_indicator is the identical recurrence as
compute_cd_indicator with the direction flipped: on every close sequence it
coincides with compute_cd_indicator applied to the negated prices, hence it
shares the CD warm-up and edge-triggering discipline exactly. -/
theorem compute_mc_indicator_mirrors_cd :
    ∀ closes : List ℚ,
      compute_mc_indicator closes = compute_cd_indicator (closes.map (fun x => -x)) := by
  intro closes
  unfold compute_mc_indicator compute_cd_indicator
  rw [List.length_map]
  apply List.map_congr_left
  intro i _
  have hneg : closeFn (closes.map (fun x => -x)) = fun j => -(closeFn closes j) :=
    funext (closeFn_neg closes)
  rw [hneg, dxdx_neg]

set_option maxRecDepth 100000 in
/-- C1: compute_cd_indicator applies no warm-up gating.  On a concrete
19-bar close sequence (shorter than the 50-bar warm-up constant of the
evaluator) it emits a True CD signal at position 17, and the modelled MC
mirror emits a True signal on the negated sequence, refuting the all-False
guarantee before the warm-up length. -/
theorem compute_cd_indicator_fires_before_warmup :
    warmupCex.length = 19 ∧
    (compute_cd_indicator warmupCex).getD 17 false = true ∧
    (compute_mc_indicator (warmupCex.map (fun x => -x))).getD 17 false = true := by
  refine ⟨by decide, by with_unfolding_all decide, by with_unfolding_all decide⟩

end StockSignal
